import Mathlib

/-!
Verification of the PPO agent update code in `agent/ppo.py`
(repository ZhuoerFeng/DRL2023-hw4).

Tensors are modelled as lists of real numbers (floating point idealized
as real arithmetic); elementwise torch operations become `List.zipWith`
and `List.map`.  The neural networks, the optimizer step and the
orthogonal initializer live outside the source file, so they are kept
abstract: the agent carries an opaque parameter vector and a `NetModel`
record supplies the evaluation and optimization functions.
-/

namespace PPO

/-- A torch tensor, modelled as a list of reals. -/
abbrev Tensor := List ℝ

/-- `torch.clamp(x, lo, hi)`: `x` truncated into `[lo, hi]`. -/
def clamp (x lo hi : ℝ) : ℝ := min (max x lo) hi

/-- `torch.mean` of a 1-d tensor (and `np.mean` of a list): sum divided by
length. -/
noncomputable def meanT (l : Tensor) : ℝ := l.sum / l.length

/-- `torch.Tensor.std()` with torch's default unbiased (Bessel) correction:
`sqrt(sum (x - mean)^2 / (n - 1))`. -/
noncomputable def stdT (l : Tensor) : ℝ :=
  Real.sqrt ((l.map (fun x => (x - meanT l) ^ 2)).sum / ((l.length : ℝ) - 1))

/-- Abstract interface to the code that lives outside `agent/ppo.py`:
`actor_net.evaluate_actions` (returning per-sample log-probabilities and
entropies), `value_net.__call__` (returning per-sample values), and the
effect on the parameter vector `Θ` of
`zero_grad` / `backward` / `clip_grad_norm_` / `optimizer.step()`
for a given total loss. -/
structure NetModel (Θ : Type) where
  evalActions : Θ → List Tensor → List Tensor → Tensor × Tensor
  valueFn : Θ → List Tensor → Tensor
  optStep : Θ → ℝ → Θ

/-- The hyperparameters and mutable state of `PPOAgent` that the update
path reads or writes (`__init__`, lines 17–41). -/
structure PPOAgent (Θ : Type) where
  clip_range : ℝ
  value_clip_range : Option ℝ
  value_coef : ℝ
  entropy_coef : ℝ
  update_epochs : ℕ
  mini_batch_size : ℕ
  train_step : ℕ
  θ : Θ

/-- `PPOAgent.get_clipped_surrogate_loss` (lines 92–104), translated
statement by statement:
`log_ratio = log_prob - old_log_prob`, `ratio = exp(log_ratio)`,
`pg_loss1 = advantage * ratio`,
`pg_loss2 = advantage * clamp(ratio, 1 - clip_range, 1 + clip_range)`,
result `- mean (min pg_loss1 pg_loss2)`. -/
noncomputable def get_clipped_surrogate_loss {Θ : Type} (ag : PPOAgent Θ)
    (log_prob old_log_prob advantage : Tensor) : ℝ :=
  let log_ratio := List.zipWith (fun a b => a - b) log_prob old_log_prob
  let ratio := log_ratio.map Real.exp
  let pg_loss1 := List.zipWith (fun a r => a * r) advantage ratio
  let pg_loss2 := List.zipWith
    (fun a r => a * clamp r (1 - ag.clip_range) (1 + ag.clip_range)) advantage ratio
  let pg_loss := - meanT (List.zipWith min pg_loss1 pg_loss2)
  pg_loss

/-- The clipped surrogate objective as the specification words it:
the negative mean over elements of
`min (r * A) (clip r (1-c) (1+c) * A)` with `r = exp(log_prob - old_log_prob)`. -/
noncomputable def specSurrogate (c : ℝ) (log_prob old_log_prob advantage : Tensor) : ℝ :=
  - meanT (List.zipWith (fun p A =>
      min (Real.exp (p.1 - p.2) * A) (clamp (Real.exp (p.1 - p.2)) (1 - c) (1 + c) * A))
    (List.zip log_prob old_log_prob) advantage)

/-- `PPOAgent.get_value_loss` (lines 106–124), translated statement by
statement: if `value_clip_range` is set, `value_clipped` clamps `value`
into `[old_value - c, old_value + c]`, else `value_clipped = value`;
`vf_loss1 = (value - returns)^2`, `vf_loss2 = (value_clipped - returns)^2`,
result `mean (min vf_loss1 vf_loss2)`. -/
noncomputable def get_value_loss {Θ : Type} (ag : PPOAgent Θ)
    (value old_value returns : Tensor) : ℝ :=
  let value_clipped :=
    match ag.value_clip_range with
    | some c => List.zipWith (fun v ov => clamp v (ov - c) (ov + c)) value old_value
    | none => value
  let vf_loss1 := List.zipWith (fun v r => (v - r) ^ 2) value returns
  let vf_loss2 := List.zipWith (fun v r => (v - r) ^ 2) value_clipped returns
  meanT (List.zipWith min vf_loss1 vf_loss2)

/-- `PPOAgent.get_entropy_loss` (lines 127–134): the negative mean of the
entropy tensor. -/
noncomputable def get_entropy_loss (entropy : Tensor) : ℝ := - meanT entropy

/-- The advantage normalization of `update_step` (line 141):
`advantage = (advantage - advantage.mean()) / (advantage.std() + 1e-8)`. -/
noncomputable def normalizeAdvantage (a : Tensor) : Tensor :=
  a.map (fun x => (x - meanT a) / (stdT a + 1 / 10 ^ 8))

/-- One minibatch, as unpacked at the top of `update_step` (line 138). -/
structure Batch where
  state : List Tensor
  action : List Tensor
  old_log_prob : Tensor
  old_value : Tensor
  advantage : Tensor
  returns : Tensor

/-- The dictionary returned by `update_step` (lines 162–165). -/
structure LossInfo where
  policy_loss : ℝ
  value_loss : ℝ
  entropy_loss : ℝ

/-- The total loss of `update_step` (line 152):
`policy_loss + value_coef * value_loss + entropy_coef * entropy_loss`,
computed on the minibatch after the advantage normalization of line 141. -/
noncomputable def update_step_total_loss {Θ : Type} (M : NetModel Θ) (ag : PPOAgent Θ)
    (b : Batch) : ℝ :=
  let advantage := normalizeAdvantage b.advantage
  let lpe := M.evalActions ag.θ b.state b.action
  let value := M.valueFn ag.θ b.state
  let policy_loss := get_clipped_surrogate_loss ag lpe.1 b.old_log_prob advantage
  let value_loss := get_value_loss ag value b.old_value b.returns
  let entropy_loss := get_entropy_loss lpe.2
  policy_loss + ag.value_coef * value_loss + ag.entropy_coef * entropy_loss

/-- `PPOAgent.update_step` (lines 136–165): normalize the minibatch
advantage, evaluate the networks, form the three losses and the total
loss, run one optimizer step on the total loss (modelled by
`M.optStep`), increment `train_step` by one, and return the loss
dictionary. -/
noncomputable def update_step {Θ : Type} (M : NetModel Θ) (ag : PPOAgent Θ)
    (b : Batch) : PPOAgent Θ × LossInfo :=
  let advantage := normalizeAdvantage b.advantage
  let lpe := M.evalActions ag.θ b.state b.action
  let value := M.valueFn ag.θ b.state
  let policy_loss := get_clipped_surrogate_loss ag lpe.1 b.old_log_prob advantage
  let value_loss := get_value_loss ag value b.old_value b.returns
  let entropy_loss := get_entropy_loss lpe.2
  ({ ag with θ := M.optStep ag.θ (update_step_total_loss M ag b),
             train_step := ag.train_step + 1 },
   ⟨policy_loss, value_loss, entropy_loss⟩)

/-- The dataset arrays returned by `buffer.make_dataset()` (line 176):
states, actions, old log-probabilities, old values, advantages and
returns, one entry per sample. -/
structure Dataset where
  states : List Tensor
  actions : List Tensor
  old_log_probs : Tensor
  old_values : Tensor
  advantages : Tensor
  returns : Tensor

/-- Numpy fancy indexing `xs[minibatch_idx]`: the selected entries in
index order. -/
def select {α : Type} (xs : List α) (d : α) (idx : List ℕ) : List α :=
  idx.map (fun i => xs.getD i d)

/-- The minibatch built from the dataset at the chosen indices
(lines 183–190). -/
def mkBatch (d : Dataset) (idx : List ℕ) : Batch :=
  ⟨select d.states [] idx, select d.actions [] idx, select d.old_log_probs 0 idx,
   select d.old_values 0 idx, select d.advantages 0 idx, select d.returns 0 idx⟩

/-- The minibatch index slices of one epoch:
`indices[start : start + k]` for `start in range(0, len(indices), k)`
(lines 180–182).  Python's `range` raises on step `0`; the `k = 0` case
is unreachable in theorems, which assume `0 < k`. -/
def chunksOf {α : Type} : ℕ → List α → List (List α)
  | _, [] => []
  | 0, _ :: _ => []
  | k + 1, x :: xs => (x :: xs.take k) :: chunksOf (k + 1) (xs.drop k)
termination_by _ l => l.length
decreasing_by simp [List.length_drop]; omega

/-- The inner minibatch loop of `update` for one epoch (lines 180–191):
run `update_step` on each minibatch slice in order, collecting the
returned loss dictionaries in order. -/
noncomputable def run_epoch {Θ : Type} (M : NetModel Θ) (d : Dataset) :
    List (List ℕ) → PPOAgent Θ → PPOAgent Θ × List LossInfo
  | [], ag => (ag, [])
  | c :: cs, ag =>
    let r := update_step M ag (mkBatch d c)
    let rest := run_epoch M d cs r.1
    (rest.1, r.2 :: rest.2)

/-- The outer epoch loop of `update` (lines 178–191): for each epoch `e`
of the list, split the shuffled index array (`perms e`, the content of
`indices` during epoch `e`) into minibatch slices and run the inner
loop; the loss dictionaries are kept only when `e` is the final epoch
(`if e == self.update_epochs - 1`, line 191). -/
noncomputable def run_epochs {Θ : Type} (M : NetModel Θ) (d : Dataset) (k : ℕ)
    (perms : ℕ → List ℕ) (final_epoch : ℕ) :
    List ℕ → PPOAgent Θ → PPOAgent Θ × List LossInfo
  | [], ag => (ag, [])
  | e :: es, ag =>
    let r := run_epoch M d (chunksOf k (perms e)) ag
    let rest := run_epochs M d k perms final_epoch es r.1
    (rest.1, (if e = final_epoch then r.2 else []) ++ rest.2)

/-- The agent state after running the epochs of the given list, ignoring
the collected losses. -/
noncomputable def epochs_agent {Θ : Type} (M : NetModel Θ) (d : Dataset) (k : ℕ)
    (perms : ℕ → List ℕ) : List ℕ → PPOAgent Θ → PPOAgent Θ
  | [], ag => ag
  | e :: es, ag =>
    epochs_agent M d k perms es (run_epoch M d (chunksOf k (perms e)) ag).1

/-- `PPOAgent.update` (lines 167–202): run the epoch loop over
`range(update_epochs)` and return the componentwise `np.mean` of the
loss dictionaries collected during the final epoch. -/
noncomputable def update {Θ : Type} (M : NetModel Θ) (ag : PPOAgent Θ)
    (d : Dataset) (perms : ℕ → List ℕ) : PPOAgent Θ × LossInfo :=
  let res := run_epochs M d ag.mini_batch_size perms (ag.update_epochs - 1)
    (List.range ag.update_epochs) ag
  (res.1, ⟨meanT (res.2.map (fun l => l.policy_loss)),
           meanT (res.2.map (fun l => l.value_loss)),
           meanT (res.2.map (fun l => l.entropy_loss))⟩)

/-- The external replay buffer as `update` sees it: `buffer.size`,
`buffer.num_envs` and the arrays `buffer.make_dataset()` hands over
(lines 172–176).  `PPOReplayBuffer` itself lives outside the source
under verification. -/
structure Buffer where
  size : ℕ
  num_envs : ℕ
  data : Dataset

/-- `update` called on a buffer: the Python method only reads
`buffer.size`, `buffer.num_envs` and `buffer.make_dataset()`, and every
array operation it performs (fancy indexing, arithmetic, `mean`, `std`)
is out-of-place, so the buffer comes back unchanged next to the
update's result. -/
noncomputable def update_on_buffer {Θ : Type} (M : NetModel Θ) (ag : PPOAgent Θ)
    (buf : Buffer) (perms : ℕ → List ℕ) : (PPOAgent Θ × LossInfo) × Buffer :=
  (update M ag buf.data perms, buf)

/-- The torch module classes `init_weights` inspects with `isinstance`. -/
inductive ModuleKind where
  | linear
  | conv2d
  | other
deriving DecidableEq

/-- A torch submodule: its class, its weight (abstract, of type `W`)
and its bias, which may be absent (`module.bias is None`). -/
structure NNModule (W : Type) where
  kind : ModuleKind
  weight : W
  bias : Option Tensor

/-- `PPOAgent.init_weights` (lines 53–62): for a `Linear` or `Conv2d`
module, replace the weight by `nn.init.orthogonal_(weight, gain)` —
kept abstract as `orthogonal`, since it draws a random orthogonal
matrix — and fill the bias (when present) with `0.0`; leave every
other module untouched. -/
def init_weights {W : Type} (orthogonal : W → ℝ → W) (m : NNModule W)
    (gain : ℝ) : NNModule W :=
  if m.kind = ModuleKind.linear ∨ m.kind = ModuleKind.conv2d then
    { m with weight := orthogonal m.weight gain,
             bias := m.bias.map (fun b => b.map (fun _ => (0 : ℝ))) }
  else m

/-- Modelled from the spec: the classes `PPOActor` and `ValueNet` of
`models.py` are not part of the source under verification; per the
spec, a network's modules form its `fcs` stack, so a network is the
list of modules of that stack. -/
structure Network (W : Type) where
  fcs : List (NNModule W)

/-- One network's share of `PPOAgent.ortho_init` (lines 43–51):
`net.fcs[:4].apply(init_weights, gain=sqrt 2)` and
`net.fcs[4:].apply(init_weights, gain=tailGain)`. -/
noncomputable def ortho_init_net {W : Type} (orthogonal : W → ℝ → W)
    (tailGain : ℝ) (net : Network W) : Network W :=
  ⟨(net.fcs.take 4).map (fun m => init_weights orthogonal m (Real.sqrt 2)) ++
   (net.fcs.drop 4).map (fun m => init_weights orthogonal m tailGain)⟩

/-- `PPOAgent.ortho_init` (lines 43–51): gain `sqrt 2` on the first four
entries of each network's `fcs`, gain `0.01` on the actor's remaining
entries and gain `1` on the value network's remaining entries. -/
noncomputable def ortho_init {W : Type} (orthogonal : W → ℝ → W)
    (actor_net value_net : Network W) : Network W × Network W :=
  (ortho_init_net orthogonal 0.01 actor_net, ortho_init_net orthogonal 1 value_net)

/-- PPO value clipping as the specification words it: the mean over
elements of the maximum of the unclipped squared error
`(value - returns)^2` and the clipped squared error
`(clip(value, old_value - c, old_value + c) - returns)^2`. -/
noncomputable def specClippedValueLoss (c : ℝ) (value old_value returns : Tensor) : ℝ :=
  meanT (List.zipWith
    (fun p r => max ((p.1 - r) ^ 2) ((clamp p.1 (p.2 - c) (p.2 + c) - r) ^ 2))
    (List.zip value old_value) returns)

/-- A concrete agent with `value_clip_range = None` and the default
hyperparameters of `__init__`, over a trivial parameter space. -/
noncomputable def agentNone : PPOAgent Unit :=
  ⟨0.2, none, 0.5, 0.01, 10, 512, 0, ()⟩

/-- A concrete agent with `value_clip_range = 1/2`, over a trivial
parameter space. -/
noncomputable def agentClip : PPOAgent Unit :=
  ⟨0.2, some (1 / 2), 0.5, 0.01, 10, 512, 0, ()⟩

/-- A trivial network model over the one-point parameter space. -/
def trivialNet : NetModel Unit :=
  ⟨fun _ _ _ => ([], []), fun _ _ => [], fun _ _ => ()⟩

/-- A concrete one-sample dataset. -/
def dataset1 : Dataset := ⟨[[1]], [[0]], [0], [0], [1], [1]⟩

/-- A concrete one-sample minibatch. -/
def batch1 : Batch := ⟨[[1]], [[0]], [0], [0], [1], [1]⟩

end PPO

namespace PPO

lemma surrogate_zip_eq (c : ℝ) :
    ∀ (lp olp adv : Tensor),
      List.zipWith min
        (List.zipWith (fun a r => a * r) adv
          ((List.zipWith (fun a b => a - b) lp olp).map Real.exp))
        (List.zipWith (fun a r => a * clamp r (1 - c) (1 + c)) adv
          ((List.zipWith (fun a b => a - b) lp olp).map Real.exp)) =
      List.zipWith (fun p A => min (Real.exp (p.1 - p.2) * A)
          (clamp (Real.exp (p.1 - p.2)) (1 - c) (1 + c) * A))
        (List.zip lp olp) adv := by
  intro lp
  induction lp with
  | nil => intro olp adv; simp
  | cons x xs ih =>
    intro olp adv
    cases olp with
    | nil => simp
    | cons y ys =>
      cases adv with
      | nil => simp
      | cons a as =>
        simp only [List.zipWith_cons_cons, List.map_cons, List.zip_cons_cons]
        rw [ih]
        rw [mul_comm a (Real.exp (x - y)),
            mul_comm a (clamp (Real.exp (x - y)) (1 - c) (1 + c))]

/-- Claim C1: `get_clipped_surrogate_loss` returns the negative mean over
elements of `min (r * A) (clip r (1 - clip_range) (1 + clip_range) * A)`
with `r = exp(log_prob - old_log_prob)` and `A` the advantage: the PPO
clipped surrogate objective.  Proved for all input lists, in particular
for equal-shaped ones. -/
theorem clipped_surrogate_matches_spec {Θ : Type} (ag : PPOAgent Θ)
    (log_prob old_log_prob advantage : Tensor) :
    get_clipped_surrogate_loss ag log_prob old_log_prob advantage =
      specSurrogate ag.clip_range log_prob old_log_prob advantage := by
  simp only [get_clipped_surrogate_loss, specSurrogate]
  rw [surrogate_zip_eq]

lemma zipWith_min_self (l : Tensor) : List.zipWith min l l = l := by
  induction l with
  | nil => rfl
  | cons x xs ih => simp [ih]

/-- Claim C3: with `value_clip_range = None`, `get_value_loss` is the
plain mean-squared error `mean ((value - returns)^2)`, and the result
does not depend on `old_value`. -/
theorem value_loss_plain_mse {Θ : Type} (ag : PPOAgent Θ)
    (hc : ag.value_clip_range = none) (value old_value old_value' returns : Tensor) :
    get_value_loss ag value old_value returns =
      meanT (List.zipWith (fun v r => (v - r) ^ 2) value returns) ∧
    get_value_loss ag value old_value returns =
      get_value_loss ag value old_value' returns := by
  simp [get_value_loss, hc, zipWith_min_self]

/-- Witness for C3 at a concrete agent and concrete tensors. -/
theorem value_loss_plain_mse_witness :
    get_value_loss agentNone [1] [2] [3] =
      meanT (List.zipWith (fun v r => (v - r) ^ 2) [1] [3]) ∧
    get_value_loss agentNone [1] [2] [3] = get_value_loss agentNone [1] [5] [3] :=
  value_loss_plain_mse agentNone rfl [1] [2] [5] [3]

/-- Claim C4, failing input: with `value_clip_range = 1/2`, `value = [2]`,
`old_value = [0]`, `returns = [0]` the code takes the elementwise
minimum of the unclipped squared error `4` and the clipped squared
error `1/4` and returns `1/4`, whereas PPO value clipping as claimed
takes the maximum and yields `4`. -/
theorem value_loss_min_not_max :
    get_value_loss agentClip [2] [0] [0] = 1 / 4 ∧
    specClippedValueLoss (1 / 2) [2] [0] [0] = 4 ∧
    (1 / 4 : ℝ) ≠ 4 := by
  refine ⟨?_, ?_, by norm_num⟩
  · simp only [get_value_loss, agentClip, specClippedValueLoss, clamp, meanT,
      List.zipWith_cons_cons, List.zipWith_nil_right, List.zipWith_nil_left,
      List.zip_cons_cons, List.zip_nil_right, List.sum_cons, List.sum_nil,
      List.length_cons, List.length_nil]
    norm_num [min_def, max_def]
  · simp only [specClippedValueLoss, clamp, meanT, List.zipWith_cons_cons,
      List.zipWith_nil_right, List.zipWith_nil_left, List.zip_cons_cons,
      List.zip_nil_right, List.sum_cons, List.sum_nil, List.length_cons,
      List.length_nil]
    norm_num [min_def, max_def]

/-- Claim C5: the total loss `update_step` hands to the optimizer is
`policy_loss + value_coef * value_loss + entropy_coef * entropy_loss`,
the entropy-regularization term is the negative mean of the entropy
tensor, and (with a nonnegative coefficient) a larger mean entropy
gives a smaller contribution to the loss. -/
theorem total_loss_decomposition {Θ : Type} (M : NetModel Θ) (ag : PPOAgent Θ)
    (b : Batch) (e1 e2 : Tensor) (hc : 0 ≤ ag.entropy_coef)
    (h : meanT e1 ≤ meanT e2) :
    update_step_total_loss M ag b =
      (update_step M ag b).2.policy_loss +
        ag.value_coef * (update_step M ag b).2.value_loss +
        ag.entropy_coef * (update_step M ag b).2.entropy_loss ∧
    (update_step M ag b).1.θ = M.optStep ag.θ (update_step_total_loss M ag b) ∧
    get_entropy_loss e1 = - meanT e1 ∧
    ag.entropy_coef * get_entropy_loss e2 ≤ ag.entropy_coef * get_entropy_loss e1 := by
  refine ⟨rfl, rfl, rfl, ?_⟩
  have : - meanT e2 ≤ - meanT e1 := neg_le_neg h
  exact mul_le_mul_of_nonneg_left this hc

/-- Witness for C5 at a concrete model, agent, minibatch and entropy
tensors. -/
theorem total_loss_decomposition_witness :
    update_step_total_loss trivialNet agentNone batch1 =
      (update_step trivialNet agentNone batch1).2.policy_loss +
        agentNone.value_coef * (update_step trivialNet agentNone batch1).2.value_loss +
        agentNone.entropy_coef * (update_step trivialNet agentNone batch1).2.entropy_loss ∧
    (update_step trivialNet agentNone batch1).1.θ =
      trivialNet.optStep agentNone.θ (update_step_total_loss trivialNet agentNone batch1) ∧
    get_entropy_loss [0] = - meanT [0] ∧
    agentNone.entropy_coef * get_entropy_loss [1] ≤
      agentNone.entropy_coef * get_entropy_loss [0] :=
  total_loss_decomposition trivialNet agentNone batch1 [0] [1]
    (by norm_num [agentNone]) (by norm_num [meanT])

lemma stdT_const (a : Tensor) (c : ℝ) (h : ∀ x ∈ a, x = c) : stdT a = 0 := by
  cases a with
  | nil => simp [stdT, meanT]
  | cons x xs =>
    have hm : meanT (x :: xs) = c := by
      have hs : (x :: xs).sum = (x :: xs).length • c := List.sum_eq_card_nsmul _ c h
      have hn : ((x :: xs).length : ℝ) ≠ 0 := by
        simp only [List.length_cons]
        positivity
      simp only [meanT, hs, nsmul_eq_mul]
      field_simp
    have hz : ((x :: xs).map (fun y => (y - meanT (x :: xs)) ^ 2)).sum = 0 := by
      apply List.sum_eq_zero
      intro y hy
      rw [List.mem_map] at hy
      obtain ⟨z, hzl, rfl⟩ := hy
      rw [h z hzl, hm]
      ring
    unfold stdT
    rw [hz]
    simp

/-- Claim C6: `update_step` computes its policy loss from the normalized
advantage `(advantage - mean advantage) / (std advantage + 1e-8)`; the
divisor is strictly positive, and when every advantage in the minibatch
equals the same value the standard deviation is `0`, so the
normalization is still well defined. -/
theorem advantage_normalization_spec {Θ : Type} (M : NetModel Θ) (ag : PPOAgent Θ)
    (b : Batch) (a : Tensor) (c : ℝ) (hall : ∀ x ∈ a, x = c) :
    (update_step M ag b).2.policy_loss =
      get_clipped_surrogate_loss ag (M.evalActions ag.θ b.state b.action).1
        b.old_log_prob (normalizeAdvantage b.advantage) ∧
    normalizeAdvantage b.advantage =
      b.advantage.map (fun x => (x - meanT b.advantage) / (stdT b.advantage + 1 / 10 ^ 8)) ∧
    0 < stdT b.advantage + 1 / 10 ^ 8 ∧
    stdT a = 0 := by
  refine ⟨rfl, rfl, ?_, stdT_const a c hall⟩
  have h1 : 0 ≤ stdT b.advantage := Real.sqrt_nonneg _
  have h2 : (0 : ℝ) < 1 / 10 ^ 8 := by norm_num
  linarith

/-- Witness for C6 at a concrete model, agent, minibatch and constant
advantage tensor. -/
theorem advantage_normalization_spec_witness :
    (update_step trivialNet agentNone batch1).2.policy_loss =
      get_clipped_surrogate_loss agentNone
        (trivialNet.evalActions agentNone.θ batch1.state batch1.action).1
        batch1.old_log_prob (normalizeAdvantage batch1.advantage) ∧
    normalizeAdvantage batch1.advantage =
      batch1.advantage.map
        (fun x => (x - meanT batch1.advantage) / (stdT batch1.advantage + 1 / 10 ^ 8)) ∧
    0 < stdT batch1.advantage + 1 / 10 ^ 8 ∧
    stdT [5, 5] = 0 :=
  advantage_normalization_spec trivialNet agentNone batch1 [5, 5] 5
    (by intro x hx; rcases List.mem_cons.mp hx with rfl | hx'; · rfl
        · rcases List.mem_singleton.mp hx' with rfl; rfl)

lemma take_drop_map_get {α β : Type} (f g : α → β) :
    ∀ (l : List α) (j i : ℕ),
      ((l.take j).map f ++ (l.drop j).map g)[i]? =
        (l[i]?).map (fun x => if i < j then f x else g x) := by
  intro l
  induction l with
  | nil => intro j i; simp
  | cons x xs ih =>
    intro j i
    cases j with
    | zero =>
      have hg : (fun (z : α) => if i < 0 then f z else g z) = g := by
        funext z; simp
      rw [List.take_zero, List.drop_zero, List.map_nil, List.nil_append, hg,
        List.getElem?_map]
    | succ j' =>
      cases i with
      | zero => simp
      | succ i' =>
        simp only [List.take_succ_cons, List.drop_succ_cons, List.map_cons,
          List.cons_append, List.getElem?_cons_succ, Nat.succ_lt_succ_iff]
        exact ih j' i'

lemma ortho_init_net_get {W : Type} (orthogonal : W → ℝ → W) (g : ℝ)
    (net : Network W) (i : ℕ) :
    (ortho_init_net orthogonal g net).fcs[i]? =
      (net.fcs[i]?).map
        (fun m => init_weights orthogonal m (if i < 4 then Real.sqrt 2 else g)) := by
  unfold ortho_init_net
  rw [take_drop_map_get]
  by_cases h : i < 4 <;> simp [h]

/-- Claim C7: `ortho_init` orthogonally initializes every `Linear` or
`Conv2d` module of the actor and value networks — gain `sqrt 2` on the
first four entries of each `fcs` stack, gain `0.01` on the actor's
remaining entries, gain `1` on the value network's remaining entries —
and `init_weights` sets every such module's bias exactly to `0`. -/
theorem ortho_init_gains_and_bias {W : Type} (orthogonal : W → ℝ → W)
    (actor_net value_net : Network W) (i : ℕ) (m : NNModule W) (g : ℝ) (b : Tensor)
    (hm : m.kind = ModuleKind.linear ∨ m.kind = ModuleKind.conv2d)
    (hb : m.bias = some b) :
    (ortho_init orthogonal actor_net value_net).1.fcs[i]? =
      (actor_net.fcs[i]?).map
        (fun mm => init_weights orthogonal mm (if i < 4 then Real.sqrt 2 else 0.01)) ∧
    (ortho_init orthogonal actor_net value_net).2.fcs[i]? =
      (value_net.fcs[i]?).map
        (fun mm => init_weights orthogonal mm (if i < 4 then Real.sqrt 2 else 1)) ∧
    (init_weights orthogonal m g).weight = orthogonal m.weight g ∧
    (init_weights orthogonal m g).bias = some (b.map (fun _ => (0 : ℝ))) := by
  refine ⟨ortho_init_net_get orthogonal 0.01 actor_net i,
          ortho_init_net_get orthogonal 1 value_net i, ?_, ?_⟩
  · unfold init_weights
    rw [if_pos hm]
  · unfold init_weights
    rw [if_pos hm]
    simp [hb]

/-- Witness for C7 at a one-module network over a trivial weight space. -/
theorem ortho_init_gains_and_bias_witness :
    (ortho_init (fun w _ => w) (Network.mk ([⟨ModuleKind.linear, (), some [1, 2]⟩] : List (NNModule Unit)))
        (Network.mk ([⟨ModuleKind.linear, (), some [1, 2]⟩] : List (NNModule Unit)))).1.fcs[0]? =
      ((Network.mk ([⟨ModuleKind.linear, (), some [1, 2]⟩] : List (NNModule Unit))).fcs[0]?).map
        (fun mm => init_weights (fun w _ => w) mm (if 0 < 4 then Real.sqrt 2 else 0.01)) ∧
    (ortho_init (fun w _ => w) (Network.mk ([⟨ModuleKind.linear, (), some [1, 2]⟩] : List (NNModule Unit)))
        (Network.mk ([⟨ModuleKind.linear, (), some [1, 2]⟩] : List (NNModule Unit)))).2.fcs[0]? =
      ((Network.mk ([⟨ModuleKind.linear, (), some [1, 2]⟩] : List (NNModule Unit))).fcs[0]?).map
        (fun mm => init_weights (fun w _ => w) mm (if 0 < 4 then Real.sqrt 2 else 1)) ∧
    (init_weights (fun w _ => w) (⟨ModuleKind.linear, (), some [1, 2]⟩ : NNModule Unit) 3).weight =
      (fun (w : Unit) (_ : ℝ) => w) (⟨ModuleKind.linear, (), some [1, 2]⟩ : NNModule Unit).weight 3 ∧
    (init_weights (fun w _ => w) (⟨ModuleKind.linear, (), some [1, 2]⟩ : NNModule Unit) 3).bias =
      some (([1, 2] : Tensor).map (fun _ => (0 : ℝ))) :=
  ortho_init_gains_and_bias (fun w _ => w)
    (Network.mk ([⟨ModuleKind.linear, (), some [1, 2]⟩] : List (NNModule Unit)))
    (Network.mk ([⟨ModuleKind.linear, (), some [1, 2]⟩] : List (NNModule Unit)))
    0 (⟨ModuleKind.linear, (), some [1, 2]⟩ : NNModule Unit) 3 [1, 2]
    (Or.inl rfl) rfl

lemma chunksOf_nil {α : Type} (k : ℕ) : chunksOf k ([] : List α) = [] := by
  rw [chunksOf]

lemma chunksOf_cons {α : Type} (k : ℕ) (x : α) (xs : List α) :
    chunksOf (k + 1) (x :: xs) = (x :: xs.take k) :: chunksOf (k + 1) (xs.drop k) := by
  rw [chunksOf]

lemma chunksOf_join_aux {α : Type} (k' : ℕ) :
    ∀ (n : ℕ) (l : List α), l.length ≤ n → (chunksOf (k' + 1) l).flatten = l := by
  intro n
  induction n with
  | zero =>
    intro l hl
    obtain rfl : l = [] := List.length_eq_zero.mp (Nat.le_zero.mp hl)
    rw [chunksOf_nil]
    rfl
  | succ n ih =>
    intro l hl
    cases l with
    | nil => rw [chunksOf_nil]; rfl
    | cons x xs =>
      rw [chunksOf_cons]
      simp only [List.flatten_cons]
      rw [ih (xs.drop k') (by simp only [List.length_drop]; simp at hl; omega)]
      simp [List.take_append_drop]

lemma chunksOf_join {α : Type} (k : ℕ) (hk : 0 < k) (l : List α) :
    (chunksOf k l).flatten = l := by
  obtain ⟨k', rfl⟩ : ∃ k', k = k' + 1 := ⟨k - 1, by omega⟩
  exact chunksOf_join_aux k' l.length l le_rfl

lemma chunksOf_length_aux {α : Type} (k' : ℕ) :
    ∀ (n : ℕ) (l : List α), l.length ≤ n →
      (chunksOf (k' + 1) l).length = (l.length + (k' + 1) - 1) / (k' + 1) := by
  intro n
  induction n with
  | zero =>
    intro l hl
    obtain rfl : l = [] := List.length_eq_zero.mp (Nat.le_zero.mp hl)
    rw [chunksOf_nil]
    simp only [List.length_nil]
    rw [show 0 + (k' + 1) - 1 = k' by omega, Nat.div_eq_of_lt (by omega)]
  | succ n ih =>
    intro l hl
    cases l with
    | nil =>
      rw [chunksOf_nil]
      simp only [List.length_nil]
      rw [show 0 + (k' + 1) - 1 = k' by omega, Nat.div_eq_of_lt (by omega)]
    | cons x xs =>
      rw [chunksOf_cons]
      simp only [List.length_cons]
      rw [ih (xs.drop k') (by simp only [List.length_drop]; simp at hl; omega)]
      simp only [List.length_drop]
      rw [show xs.length + 1 + (k' + 1) - 1 = xs.length + (k' + 1) by omega,
          Nat.add_div_right _ (by omega)]
      by_cases h : k' ≤ xs.length
      · rw [show xs.length - k' + (k' + 1) - 1 = xs.length - k' + k' by omega,
            Nat.sub_add_cancel h]
      · rw [show xs.length - k' + (k' + 1) - 1 = k' by omega,
            Nat.div_eq_of_lt (by omega), Nat.div_eq_of_lt (by omega)]

lemma chunksOf_length {α : Type} (k : ℕ) (hk : 0 < k) (l : List α) :
    (chunksOf k l).length = (l.length + k - 1) / k := by
  obtain ⟨k', rfl⟩ : ∃ k', k = k' + 1 := ⟨k - 1, by omega⟩
  exact chunksOf_length_aux k' l.length l le_rfl

lemma chunksOf_mem_aux {α : Type} (k' : ℕ) :
    ∀ (n : ℕ) (l : List α), l.length ≤ n →
      ∀ c ∈ chunksOf (k' + 1) l, c ≠ [] ∧ c.length ≤ k' + 1 := by
  intro n
  induction n with
  | zero =>
    intro l hl c hc
    obtain rfl : l = [] := List.length_eq_zero.mp (Nat.le_zero.mp hl)
    rw [chunksOf_nil] at hc
    simp at hc
  | succ n ih =>
    intro l hl c hc
    cases l with
    | nil => rw [chunksOf_nil] at hc; simp at hc
    | cons x xs =>
      rw [chunksOf_cons] at hc
      rcases List.mem_cons.mp hc with rfl | hc'
      · refine ⟨by simp, ?_⟩
        simp only [List.length_cons, List.length_take]
        omega
      · exact ih (xs.drop k') (by simp only [List.length_drop]; simp at hl; omega) c hc'

lemma chunksOf_mem {α : Type} (k : ℕ) (hk : 0 < k) (l : List α) :
    ∀ c ∈ chunksOf k l, c ≠ [] ∧ c.length ≤ k := by
  obtain ⟨k', rfl⟩ : ∃ k', k = k' + 1 := ⟨k - 1, by omega⟩
  exact chunksOf_mem_aux k' l.length l le_rfl

lemma chunksOf_dropLast_aux {α : Type} (k' : ℕ) :
    ∀ (n : ℕ) (l : List α), l.length ≤ n →
      ∀ c ∈ (chunksOf (k' + 1) l).dropLast, c.length = k' + 1 := by
  intro n
  induction n with
  | zero =>
    intro l hl c hc
    obtain rfl : l = [] := List.length_eq_zero.mp (Nat.le_zero.mp hl)
    rw [chunksOf_nil] at hc
    simp at hc
  | succ n ih =>
    intro l hl c hc
    cases l with
    | nil => rw [chunksOf_nil] at hc; simp at hc
    | cons x xs =>
      rw [chunksOf_cons] at hc
      rcases hrest : chunksOf (k' + 1) (xs.drop k') with _ | ⟨r, rs⟩
      · rw [hrest] at hc
        simp at hc
      · rw [hrest, List.dropLast_cons₂] at hc
        rcases List.mem_cons.mp hc with rfl | hc'
        · have hne : xs.drop k' ≠ [] := by
            intro h0
            rw [h0, chunksOf_nil] at hrest
            exact absurd hrest (by simp)
          have hpos : 0 < (xs.drop k').length := List.length_pos.mpr hne
          rw [List.length_drop] at hpos
          simp only [List.length_cons, List.length_take]
          omega
        · have := ih (xs.drop k') (by simp only [List.length_drop]; simp at hl; omega) c
          rw [hrest] at this
          exact this hc'

lemma chunksOf_dropLast {α : Type} (k : ℕ) (hk : 0 < k) (l : List α) :
    ∀ c ∈ (chunksOf k l).dropLast, c.length = k := by
  obtain ⟨k', rfl⟩ : ∃ k', k = k' + 1 := ⟨k - 1, by omega⟩
  exact chunksOf_dropLast_aux k' l.length l le_rfl

lemma update_step_train {Θ : Type} (M : NetModel Θ) (ag : PPOAgent Θ) (b : Batch) :
    (update_step M ag b).1.train_step = ag.train_step + 1 := rfl

lemma run_epoch_train {Θ : Type} (M : NetModel Θ) (d : Dataset) :
    ∀ (cs : List (List ℕ)) (ag : PPOAgent Θ),
      (run_epoch M d cs ag).1.train_step = ag.train_step + cs.length := by
  intro cs
  induction cs with
  | nil => intro ag; rfl
  | cons c cs ih =>
    intro ag
    rw [run_epoch]
    simp only [List.length_cons]
    rw [ih, update_step_train]
    omega

lemma run_epochs_fst {Θ : Type} (M : NetModel Θ) (d : Dataset) (k : ℕ)
    (perms : ℕ → List ℕ) (F : ℕ) :
    ∀ (es : List ℕ) (ag : PPOAgent Θ),
      (run_epochs M d k perms F es ag).1 = epochs_agent M d k perms es ag := by
  intro es
  induction es with
  | nil => intro ag; rfl
  | cons e es ih =>
    intro ag
    rw [run_epochs, epochs_agent]
    exact ih _

lemma epochs_agent_train {Θ : Type} (M : NetModel Θ) (d : Dataset) (k : ℕ)
    (perms : ℕ → List ℕ) :
    ∀ (es : List ℕ) (ag : PPOAgent Θ),
      (epochs_agent M d k perms es ag).train_step =
        ag.train_step + (es.map (fun e => (chunksOf k (perms e)).length)).sum := by
  intro es
  induction es with
  | nil => intro ag; simp [epochs_agent]
  | cons e es ih =>
    intro ag
    rw [epochs_agent, ih, run_epoch_train]
    simp only [List.map_cons, List.sum_cons]
    omega

lemma run_epochs_final {Θ : Type} (M : NetModel Θ) (d : Dataset) (k : ℕ)
    (perms : ℕ → List ℕ) (F : ℕ) :
    ∀ (es : List ℕ) (ag : PPOAgent Θ), (∀ e ∈ es, e ≠ F) →
      (run_epochs M d k perms F (es ++ [F]) ag).2 =
        (run_epoch M d (chunksOf k (perms F)) (epochs_agent M d k perms es ag)).2 := by
  intro es
  induction es with
  | nil =>
    intro ag _
    rw [List.nil_append, run_epochs]
    simp [run_epochs, epochs_agent]
  | cons e es ih =>
    intro ag h
    have he : e ≠ F := h e (List.mem_cons_self e es)
    rw [List.cons_append, run_epochs]
    simp only [if_neg he, List.nil_append]
    rw [ih _ (fun x hx => h x (List.mem_cons_of_mem e hx)), epochs_agent]

lemma update_train_step_eq {Θ : Type} (M : NetModel Θ) (ag : PPOAgent Θ)
    (d : Dataset) (perms : ℕ → List ℕ) (n : ℕ) (hk : 0 < ag.mini_batch_size)
    (hl : ∀ e < ag.update_epochs, (perms e).length = n) :
    (update M ag d perms).1.train_step =
      ag.train_step +
        ag.update_epochs * ((n + ag.mini_batch_size - 1) / ag.mini_batch_size) := by
  unfold update
  rw [run_epochs_fst, epochs_agent_train]
  congr 1
  have hc : ∀ e ∈ List.range ag.update_epochs,
      (chunksOf ag.mini_batch_size (perms e)).length =
        (n + ag.mini_batch_size - 1) / ag.mini_batch_size := by
    intro e he
    rw [chunksOf_length _ hk, hl e (List.mem_range.mp he)]
  rw [List.map_congr_left hc, List.map_const', List.sum_replicate, List.length_range,
    smul_eq_mul]

/-- Claim C2: each epoch of `update` works on a shuffled permutation of
the indices `0..n-1`, partitioned into consecutive minibatches of
`mini_batch_size` indices (the last possibly smaller), so every index
occurs exactly once per epoch and `update_step` runs exactly
`update_epochs * ceil(n / mini_batch_size)` times (visible as the growth
of `train_step`, which each `update_step` call increments once). -/
theorem update_minibatch_schedule {Θ : Type} (M : NetModel Θ) (ag : PPOAgent Θ)
    (d : Dataset) (perms : ℕ → List ℕ) (n : ℕ) (hk : 0 < ag.mini_batch_size)
    (hp : ∀ e < ag.update_epochs, (perms e).Perm (List.range n)) :
    (∀ e < ag.update_epochs,
        (chunksOf ag.mini_batch_size (perms e)).flatten.Perm (List.range n)) ∧
    (∀ e < ag.update_epochs,
        (chunksOf ag.mini_batch_size (perms e)).length =
          (n + ag.mini_batch_size - 1) / ag.mini_batch_size) ∧
    (∀ e < ag.update_epochs, ∀ c ∈ chunksOf ag.mini_batch_size (perms e),
        c ≠ [] ∧ c.length ≤ ag.mini_batch_size) ∧
    (∀ e < ag.update_epochs, ∀ c ∈ (chunksOf ag.mini_batch_size (perms e)).dropLast,
        c.length = ag.mini_batch_size) ∧
    (update M ag d perms).1.train_step =
      ag.train_step +
        ag.update_epochs * ((n + ag.mini_batch_size - 1) / ag.mini_batch_size) := by
  refine ⟨?_, ?_, ?_, ?_, ?_⟩
  · intro e he
    rw [chunksOf_join _ hk]
    exact hp e he
  · intro e he
    rw [chunksOf_length _ hk, (hp e he).length_eq, List.length_range]
  · intro e _
    exact chunksOf_mem _ hk _
  · intro e _
    exact chunksOf_dropLast _ hk _
  · exact update_train_step_eq M ag d perms n hk
      (fun e he => by rw [(hp e he).length_eq, List.length_range])

/-- Witness for C2 at a concrete model, agent, dataset and permutation
family. -/
theorem update_minibatch_schedule_witness :
    (∀ e < agentNone.update_epochs,
        (chunksOf agentNone.mini_batch_size (List.range 1)).flatten.Perm (List.range 1)) ∧
    (∀ e < agentNone.update_epochs,
        (chunksOf agentNone.mini_batch_size (List.range 1)).length =
          (1 + agentNone.mini_batch_size - 1) / agentNone.mini_batch_size) ∧
    (∀ e < agentNone.update_epochs,
        ∀ c ∈ chunksOf agentNone.mini_batch_size (List.range 1),
          c ≠ [] ∧ c.length ≤ agentNone.mini_batch_size) ∧
    (∀ e < agentNone.update_epochs,
        ∀ c ∈ (chunksOf agentNone.mini_batch_size (List.range 1)).dropLast,
          c.length = agentNone.mini_batch_size) ∧
    (update trivialNet agentNone dataset1 (fun _ => List.range 1)).1.train_step =
      agentNone.train_step +
        agentNone.update_epochs *
          ((1 + agentNone.mini_batch_size - 1) / agentNone.mini_batch_size) :=
  update_minibatch_schedule trivialNet agentNone dataset1 (fun _ => List.range 1) 1
    (by norm_num [agentNone]) (fun e _ => List.Perm.refl _)

/-- Claim C9: the loss statistics returned by `update` are the
componentwise arithmetic means of the per-minibatch loss dictionaries
produced during the final epoch (epoch index `update_epochs - 1`) only;
earlier epochs contribute nothing. -/
theorem update_stats_final_epoch {Θ : Type} (M : NetModel Θ) (ag : PPOAgent Θ)
    (d : Dataset) (perms : ℕ → List ℕ) (hE : 0 < ag.update_epochs) :
    (update M ag d perms).2 =
      ⟨meanT (((run_epoch M d
            (chunksOf ag.mini_batch_size (perms (ag.update_epochs - 1)))
            (epochs_agent M d ag.mini_batch_size perms
              (List.range (ag.update_epochs - 1)) ag)).2).map
          (fun l => l.policy_loss)),
       meanT (((run_epoch M d
            (chunksOf ag.mini_batch_size (perms (ag.update_epochs - 1)))
            (epochs_agent M d ag.mini_batch_size perms
              (List.range (ag.update_epochs - 1)) ag)).2).map
          (fun l => l.value_loss)),
       meanT (((run_epoch M d
            (chunksOf ag.mini_batch_size (perms (ag.update_epochs - 1)))
            (epochs_agent M d ag.mini_batch_size perms
              (List.range (ag.update_epochs - 1)) ag)).2).map
          (fun l => l.entropy_loss))⟩ := by
  have hr : List.range ag.update_epochs =
      List.range (ag.update_epochs - 1) ++ [ag.update_epochs - 1] := by
    conv_lhs => rw [show ag.update_epochs = (ag.update_epochs - 1) + 1 by omega]
    rw [List.range_succ]
  simp only [update]
  rw [hr, run_epochs_final M d ag.mini_batch_size perms (ag.update_epochs - 1)
    (List.range (ag.update_epochs - 1)) ag
    (fun e he => by have := List.mem_range.mp he; omega)]

/-- Witness for C9 at a concrete model, agent, dataset and permutation
family. -/
theorem update_stats_final_epoch_witness :
    (update trivialNet agentNone dataset1 (fun _ => List.range 1)).2 =
      ⟨meanT (((run_epoch trivialNet dataset1
            (chunksOf agentNone.mini_batch_size ((fun (_ : ℕ) => List.range 1) (agentNone.update_epochs - 1)))
            (epochs_agent trivialNet dataset1 agentNone.mini_batch_size (fun _ => List.range 1)
              (List.range (agentNone.update_epochs - 1)) agentNone)).2).map
          (fun l => l.policy_loss)),
       meanT (((run_epoch trivialNet dataset1
            (chunksOf agentNone.mini_batch_size ((fun (_ : ℕ) => List.range 1) (agentNone.update_epochs - 1)))
            (epochs_agent trivialNet dataset1 agentNone.mini_batch_size (fun _ => List.range 1)
              (List.range (agentNone.update_epochs - 1)) agentNone)).2).map
          (fun l => l.value_loss)),
       meanT (((run_epoch trivialNet dataset1
            (chunksOf agentNone.mini_batch_size ((fun (_ : ℕ) => List.range 1) (agentNone.update_epochs - 1)))
            (epochs_agent trivialNet dataset1 agentNone.mini_batch_size (fun _ => List.range 1)
              (List.range (agentNone.update_epochs - 1)) agentNone)).2).map
          (fun l => l.entropy_loss))⟩ :=
  update_stats_final_epoch trivialNet agentNone dataset1 (fun _ => List.range 1)
    (by norm_num [agentNone])

/-- Claim C10: every `update_step` call increments `train_step` by
exactly one, one `update` call grows it by exactly
`update_epochs * ceil(n / mini_batch_size)`, and in particular
`train_step` never decreases. -/
theorem train_step_counting {Θ : Type} (M : NetModel Θ) (ag : PPOAgent Θ)
    (b : Batch) (d : Dataset) (perms : ℕ → List ℕ) (n : ℕ)
    (hk : 0 < ag.mini_batch_size)
    (hl : ∀ e < ag.update_epochs, (perms e).length = n) :
    (update_step M ag b).1.train_step = ag.train_step + 1 ∧
    (update M ag d perms).1.train_step =
      ag.train_step +
        ag.update_epochs * ((n + ag.mini_batch_size - 1) / ag.mini_batch_size) ∧
    ag.train_step ≤ (update M ag d perms).1.train_step := by
  have h2 := update_train_step_eq M ag d perms n hk hl
  exact ⟨rfl, h2, by rw [h2]; omega⟩

/-- Witness for C10 at a concrete model, agent, minibatch, dataset and
permutation family. -/
theorem train_step_counting_witness :
    (update_step trivialNet agentNone batch1).1.train_step = agentNone.train_step + 1 ∧
    (update trivialNet agentNone dataset1 (fun _ => List.range 1)).1.train_step =
      agentNone.train_step +
        agentNone.update_epochs *
          ((1 + agentNone.mini_batch_size - 1) / agentNone.mini_batch_size) ∧
    agentNone.train_step ≤
      (update trivialNet agentNone dataset1 (fun _ => List.range 1)).1.train_step :=
  train_step_counting trivialNet agentNone batch1 dataset1 (fun _ => List.range 1) 1
    (by norm_num [agentNone]) (fun e _ => by simp)

/-- Claim C8: `update` leaves the buffer and its dataset arrays
untouched — its value on the buffer is paired with the buffer unchanged
— and it reads the dataset only through the pre-computed per-index
values that `mkBatch` selects: two datasets whose selected minibatches
coincide give identical update results, so no advantages or returns are
recomputed inside the agent and the per-minibatch advantage
normalization happens on a fresh tensor, not on the stored arrays. -/
theorem update_reads_buffer_only {Θ : Type} (M : NetModel Θ) (ag : PPOAgent Θ)
    (buf : Buffer) (perms : ℕ → List ℕ) (d d' : Dataset)
    (h : ∀ idx : List ℕ, mkBatch d idx = mkBatch d' idx) :
    (update_on_buffer M ag buf perms).2 = buf ∧
    update M ag d perms = update M ag d' perms := by
  refine ⟨rfl, ?_⟩
  have hre : ∀ (cs : List (List ℕ)) (a : PPOAgent Θ),
      run_epoch M d cs a = run_epoch M d' cs a := by
    intro cs
    induction cs with
    | nil => intro a; rfl
    | cons c cs ih =>
      intro a
      rw [run_epoch, run_epoch]
      simp only [h c, ih]
  have hres : ∀ (es : List ℕ) (a : PPOAgent Θ),
      run_epochs M d ag.mini_batch_size perms (ag.update_epochs - 1) es a =
        run_epochs M d' ag.mini_batch_size perms (ag.update_epochs - 1) es a := by
    intro es
    induction es with
    | nil => intro a; rfl
    | cons e es ih =>
      intro a
      rw [run_epochs, run_epochs]
      simp only [hre, ih]
  unfold update
  simp only [hres]

/-- Witness for C8 at a concrete model, agent, buffer and dataset pair. -/
theorem update_reads_buffer_only_witness :
    (update_on_buffer trivialNet agentNone ⟨1, 1, dataset1⟩ (fun _ => List.range 1)).2 =
      (⟨1, 1, dataset1⟩ : Buffer) ∧
    update trivialNet agentNone dataset1 (fun _ => List.range 1) =
      update trivialNet agentNone dataset1 (fun _ => List.range 1) :=
  update_reads_buffer_only trivialNet agentNone ⟨1, 1, dataset1⟩
    (fun _ => List.range 1) dataset1 dataset1 (fun _ => rfl)

end PPO
